import Mathlib

/-!
Verification of the ingestion/extraction/chunk-embed pipeline of the
DesignAutomationAssistant backend, as a shallow embedding in Lean 4.

Each Lean definition below embeds one Python function of the repository
(module and function named in its doc comment).  External effects that the
Python code performs (network calls, the database session, the thread scheduler,
the memory probe) are made explicit: network results and scheduler decisions
become parameters, the database session becomes explicit state, and machine
floats in vector arithmetic are idealised as real numbers.
-/

namespace DesignAutomation

/-! ## pdf_extraction.py -/

namespace PdfExtraction

/-- One element of the `pdf_files: List[Dict]` payload: a dict with keys
`filename` and `content` (raw bytes). -/
structure PdfFile where
  filename : String
  content : List UInt8
deriving DecidableEq

/-- Embeds `should_batch_pdfs` from `src/backend/app/services/pdf_extraction.py`:
`total_size = sum(len(f["content"]) for f in pdf_files)` and the decision
`total_size <= 100*1024*1024 and len(pdf_files) <= 3 and len(pdf_files) > 1`. -/
def should_batch_pdfs (pdf_files : List PdfFile) : Bool :=
  let MAX_BATCH_SIZE : Nat := 100 * 1024 * 1024
  let MAX_FILES_PER_BATCH : Nat := 3
  let total_size : Nat := (pdf_files.map (fun f => f.content.length)).sum
  decide (total_size ≤ MAX_BATCH_SIZE) &&
    decide (pdf_files.length ≤ MAX_FILES_PER_BATCH) &&
    decide (pdf_files.length > 1)

/-- A byte string of a given size (all zeros). -/
def bytesOfSize (bytes : Nat) : List UInt8 :=
  List.replicate bytes 0

/-- A PDF fixture of a given byte size (contents all zero; only the size
matters to `should_batch_pdfs`). -/
def pdfOfSize (name : String) (bytes : Nat) : PdfFile :=
  ⟨name, bytesOfSize bytes⟩

end PdfExtraction

/-! ## thread_pool.py -/

namespace ThreadPool

/-- The duck-typed `item` payloads that callers actually submit to
`process_items_in_parallel` (see `email_extraction.py`): either a dict
with string fields, or a list of such dicts (a PDF batch). -/
inductive WorkItem where
  | wdict (fields : List (String × String))
  | wbatch (elems : List (List (String × String)))
deriving DecidableEq, Inhabited

/-- Python `fields.get(key)` on a string-valued dict. -/
def lookupField (fields : List (String × String)) (key : String) : Option String :=
  (fields.find? (fun p => p.1 == key)).map (fun p => p.2)

/-- The fallback filename computed in the `except` branch of
`process_items_in_parallel` (`src/backend/app/services/thread_pool.py`):
`item.get("filename", "unknown")` for a dict, `f"batch_of_{len(item)}_items"`
for a non-empty list of dicts, `"unknown"` for an empty list. -/
def fallbackFilename : WorkItem → String
  | .wdict fields => (lookupField fields "filename").getD "unknown"
  | .wbatch elems =>
    if elems.isEmpty then "unknown"
    else "batch_of_" ++ toString elems.length ++ "_items"

/-- The per-future handling inside the `as_completed` loop of
`process_items_in_parallel`: `future.result()` either yields
`(filename, text)` or raises, in which case the error placeholder
`f"Error processing {filename}: {e}"` is substituted.  The worker
`process_func` is modelled as returning `Except` (exception as `.error`). -/
def processOne (process_func : String → WorkItem → Except String (String × String))
    (p : String × WorkItem) : String × String :=
  match process_func p.1 p.2 with
  | .ok r => r
  | .error e =>
    let filename := fallbackFilename p.2
    (filename, "Error processing " ++ filename ++ ": " ++ e)

/-- Embeds `process_items_in_parallel` from
`src/backend/app/services/thread_pool.py`.  All items are submitted to the
pool; `as_completed` then yields the futures in a nondeterministic completion
order, modelled by the explicit index sequence `completion` (a permutation of
`0..items.length-1`); the function appends one result per completed future,
in completion order. -/
def process_items_in_parallel
    (items : List (String × WorkItem))
    (process_func : String → WorkItem → Except String (String × String))
    (completion : List Nat) : List (String × String) :=
  completion.filterMap (fun i => (items[i]?).map (processOne process_func))

end ThreadPool

/-! ## sync_pipeline.py : the chunker -/

namespace SyncPipeline

/-- One chunk record produced by `_chunk_text`
(`{"text": ..., "start": start, "end": end}`); the Python key `"end"` is a
Lean keyword and is embedded as field `stop`. -/
structure Chunk where
  text : List Char
  start : Nat
  stop : Nat
deriving DecidableEq

/-- The `while start < len(text)` loop body of `_chunk_text`
(`src/backend/app/services/sync_pipeline.py`).  Each iteration emits the
window `text[start:end]` with `end = min(len(text), start + size)`, breaks
once `end >= len(text)`, and otherwise steps to `start = end - overlap`
(the Python clamp `if start < 0: start = 0` coincides with truncated `Nat`
subtraction).  The loop is embedded with an explicit iteration budget `fuel`;
`chunkAux_fuel_eq` below shows the result is independent of the budget
whenever `overlap < size` and the budget exceeds `text.length - start`,
i.e. the source loop terminates. -/
def chunkAux (text : List Char) (size overlap : Nat) : Nat → Nat → List Chunk
  | 0, _ => []
  | fuel + 1, start =>
    if start < text.length then
      let e := min text.length (start + size)
      let c : Chunk := ⟨(text.drop start).take (e - start), start, e⟩
      if text.length ≤ e then [c]
      else c :: chunkAux text size overlap fuel (e - overlap)
    else []

/-- Embeds `_chunk_text(text, size, overlap)`: the guard
`if not text: return []` followed by the sliding-window loop. -/
def _chunk_text (text : List Char) (size overlap : Nat) : List Chunk :=
  if text = [] then [] else chunkAux text size overlap (text.length + 1) 0

end SyncPipeline

/-! ## storage_ingest.py -/

namespace StorageIngest

/-- The fields of one external asset dict used by the core
(`{id, name, file_extension, ...}`); `id` is already stringified
(`str(asset.get("id"))`), `none` standing for a missing/None id. -/
structure Asset where
  id : Option String
  name : Option String
  file_extension : Option String
deriving DecidableEq

/-- One entry of `item["updates"]`: only its `assets` list is consumed. -/
structure UpdateRec where
  assets : List Asset
deriving DecidableEq

/-- One entry of `item["column_values"]`, with the fields read by
`_build_column_text` (`column.title`, `display_value`, `text`, `value`). -/
structure ColumnValue where
  title : Option String
  display_value : Option String
  text : Option String
  value : Option String
deriving DecidableEq

/-- The item payload returned by `fetch_item_with_assets`. -/
structure Item where
  updated_at : Option String
  assets : List Asset
  updates : List UpdateRec
  column_values : List ColumnValue
deriving DecidableEq

/-- Lexicographic comparison of two character lists by code point — the
order Python's `sorted` uses on `str` values. -/
def lexLe : List Char → List Char → Bool
  | [], _ => true
  | _ :: _, [] => false
  | x :: xs, y :: ys =>
    if x.toNat < y.toNat then true
    else if y.toNat < x.toNat then false
    else lexLe xs ys

/-- `lexLe` lifted to `String`. -/
def strLeB (a b : String) : Bool :=
  lexLe a.data b.data

/-- `strLeB` as a proposition, for use with `List.insertionSort`. -/
def StrLe (a b : String) : Prop :=
  strLeB a b = true

instance : DecidableRel StrLe :=
  fun a b => inferInstanceAs (Decidable (strLeB a b = true))

/-- The asset ids collected by `compute_snapshot_version`
(`src/backend/app/services/storage_ingest.py`): every non-None id of the
item's primary assets and of its updates' assets, in listing order and with
duplicates (the Python code inserts them into a `set`). -/
def assetIdList (item : Item) : List String :=
  item.assets.filterMap (fun a => a.id) ++
    ((item.updates.map (fun u => u.assets)).flatten).filterMap (fun a => a.id)

/-- `sorted(asset_ids)` where `asset_ids` is a `set`: duplicates removed,
then sorted lexicographically.  A `set` has no observable order, so any
sorting algorithm embeds Python's `sorted` faithfully here. -/
def sortedAssetIds (item : Item) : List String :=
  List.insertionSort StrLe (assetIdList item).dedup

/-- The hash seed `f"{updated_at}:{','.join(sorted(asset_ids))}"` with
`updated_at = item.get("updated_at") or ""`. -/
def snapshotSeed (item : Item) : String :=
  (item.updated_at.getD "") ++ ":" ++ String.intercalate "," (sortedAssetIds item)

/-- Embeds `compute_snapshot_version`.  The external primitive
`hashlib.sha256(...).hexdigest()` is abstracted as the parameter
`sha256hex`, an arbitrary but fixed function of the seed string. -/
def compute_snapshot_version (sha256hex : String → String) (item : Item) : String :=
  sha256hex (snapshotSeed item)

end StorageIngest

/-! ## llm_interface.py and rate_limiter.py -/

namespace LlmInterface

/-- Python's substring test `needle in hay`. -/
def containsSub (hay needle : String) : Bool :=
  (List.range (hay.data.length + 1)).any (fun i => needle.data.isPrefixOf (hay.data.drop i))

/-- Embeds `is_rate_limit_error` from `src/backend/app/services/llm_interface.py`:
`"429" in str(e) or "RESOURCE_EXHAUSTED" in str(e) or "RATE_LIMIT" in str(e)`. -/
def is_rate_limit_error (e : String) : Bool :=
  containsSub e "429" || containsSub e "RESOURCE_EXHAUSTED" || containsSub e "RATE_LIMIT"

/-- The outcome the external world hands attempt number `k` of
`gemini_api_with_retry`: the limiter's `wait_for_availability` timing out,
a successful `generate_content`, or `generate_content` raising with a given
message (transience is decided from the message by `is_rate_limit_error`,
exactly as the source does). -/
inductive AttemptOutcome (α : Type) where
  | acquireTimeout
  | ok (v : α)
  | exn (msg : String)

/-- Events of one run of `gemini_api_with_retry`, in program order:
limiter slot acquired, slot released, `time.sleep` of a duration,
an exception propagated to the caller, or a normal return. -/
inductive Ev where
  | acquire
  | release
  | sleep (d : ℚ)
  | raised (msg : String)
  | returned
deriving DecidableEq

/-- The message of the exception raised when `wait_for_availability` fails. -/
def acquireFailMsg : String :=
  "Could not acquire API rate limit slot within timeout"

/-- Embeds the `while retries <= max_retries` loop of `gemini_api_with_retry`
(`src/backend/app/services/llm_interface.py`) from loop counter `retries`,
producing the event trace and the result.  Sleep durations are
`initial_backoff * (2 ** retries) + jitter` with the random jitter value for
attempt `k` supplied by the stream `jitter k` (the source draws it uniformly
from `[0, 0.1 * base_sleep]`). -/
def retryFrom {α : Type} (outcome : Nat → AttemptOutcome α) (jitter : Nat → ℚ)
    (initial_backoff : ℚ) (max_retries retries : Nat) : List Ev × Except String α :=
  match outcome retries with
  | .acquireTimeout => ([.raised acquireFailMsg], .error acquireFailMsg)
  | .ok v => ([.acquire, .release, .returned], .ok v)
  | .exn msg =>
    if h : is_rate_limit_error msg = true ∧ retries < max_retries then
      let d := initial_backoff * 2 ^ retries + jitter retries
      let rest := retryFrom outcome jitter initial_backoff max_retries (retries + 1)
      (.acquire :: .release :: .sleep d :: rest.1, rest.2)
    else
      ([.acquire, .release, .raised msg], .error msg)
termination_by max_retries - retries
decreasing_by omega

/-- Embeds `gemini_api_with_retry` (the loop entered with `retries = 0`;
the source defaults are `max_retries=5`, `initial_backoff=5`). -/
def gemini_api_with_retry {α : Type} (outcome : Nat → AttemptOutcome α) (jitter : Nat → ℚ)
    (initial_backoff : ℚ) (max_retries : Nat) : List Ev × Except String α :=
  retryFrom outcome jitter initial_backoff max_retries 0

/-- The index of the decisive attempt: the first attempt whose outcome is not
a retryable (rate-limit) exception, capped at `max_retries`.  It equals the
number of retries the loop performs. -/
def retryCount {α : Type} (outcome : Nat → AttemptOutcome α) (max_retries retries : Nat) : Nat :=
  match outcome retries with
  | .exn msg =>
    if h : is_rate_limit_error msg = true ∧ retries < max_retries then
      retryCount outcome max_retries (retries + 1)
    else retries
  | _ => retries
termination_by max_retries - retries
decreasing_by omega

/-- Trace discipline for the limiter slot: scanning the events with the
number of currently-held slots, every `acquire` happens with no slot held,
every `release` with exactly one, and every `sleep`, propagated exception or
return happens with zero slots held (the slot is released before sleeping or
returning), ending with zero slots held. -/
def slotOkFrom : Nat → List Ev → Bool
  | held, [] => held == 0
  | held, Ev.acquire :: rest => held == 0 && slotOkFrom 1 rest
  | held, Ev.release :: rest => held == 1 && slotOkFrom 0 rest
  | held, Ev.sleep _ :: rest => held == 0 && slotOkFrom held rest
  | held, Ev.raised _ :: rest => held == 0 && slotOkFrom held rest
  | held, Ev.returned :: rest => held == 0 && slotOkFrom held rest

/-- A trace is slot-safe when it respects `slotOkFrom` starting from no held slot. -/
def slotSafe (evs : List Ev) : Bool :=
  slotOkFrom 0 evs

/-- The sleep durations of a trace, in order. -/
def sleepsOf (evs : List Ev) : List ℚ :=
  evs.filterMap (fun e => match e with | .sleep d => some d | _ => none)

end LlmInterface

/-! ## The email branch of run_sync_pipeline: scratch-file lifecycle -/

namespace EmailBranch

/-- One attachment record returned by `process_email_content_to_temp`
(`src/backend/app/services/email_extraction.py`): the attachment's filename
and the scratch file it was written to (`temp_path`, modelled as an
identifier).  Each parsed attachment and inline image yields exactly one
such scratch file. -/
structure TempAtt where
  filename : String
  temp_path : Nat
deriving DecidableEq

/-- `att["filename"].lower().endswith(ext)`.  Lowercasing is per character,
which agrees with Python on the ASCII extensions compared here. -/
def lowerEndsWith (name ext : String) : Bool :=
  ext.data.isSuffixOf (name.data.map Char.toLower)

/-- `MAX_ATTACHMENTS_PER_EMAIL` from `run_sync_pipeline`. -/
def MAX_ATTACHMENTS_PER_EMAIL : Nat := 8

/-- The PDF attachment selection of the email branch of `run_sync_pipeline`
(`src/backend/app/services/sync_pipeline.py`): filter on `.pdf`, then
truncate to `MAX_ATTACHMENTS_PER_EMAIL`. -/
def pdfAttachmentsOf (attachments : List TempAtt) : List TempAtt :=
  let pdfs := attachments.filter (fun a => lowerEndsWith a.filename ".pdf")
  if pdfs.length > MAX_ATTACHMENTS_PER_EMAIL then pdfs.take MAX_ATTACHMENTS_PER_EMAIL else pdfs

/-- The image-attachment extension whitelist of the email branch. -/
def imageExts : List String := [".jpg", ".jpeg", ".png", ".webp"]

/-- The image attachment selection of the email branch: filter on
`(".jpg", ".jpeg", ".png", ".webp")`, then truncate to
`MAX_ATTACHMENTS_PER_EMAIL`. -/
def imageAttachmentsOf (attachments : List TempAtt) : List TempAtt :=
  let imgs := attachments.filter (fun a => imageExts.any (fun ext => lowerEndsWith a.filename ext))
  if imgs.length > MAX_ATTACHMENTS_PER_EMAIL then imgs.take MAX_ATTACHMENTS_PER_EMAIL else imgs

/-- The extension list of the `other_attachments` filter of the email branch
(`".pdf", ".jpg", ".jpeg", ".png", ".webp", ".gif", ".bmp"`). -/
def visualExts : List String := [".pdf", ".jpg", ".jpeg", ".png", ".webp", ".gif", ".bmp"]

/-- The `other_attachments` selection: attachments whose filename ends in
none of `visualExts`. -/
def otherAttachmentsOf (attachments : List TempAtt) : List TempAtt :=
  attachments.filter (fun a => !(visualExts.any (fun ext => lowerEndsWith a.filename ext)))

/-- The scratch files created while processing one email: one per parsed
attachment and one per inline image. -/
def createdTempPaths (attachments inline_images : List TempAtt) : List Nat :=
  attachments.map (fun a => a.temp_path) ++ inline_images.map (fun a => a.temp_path)

/-- The scratch files the email branch of `run_sync_pipeline` unlinks on its
success path (no memory aborts, no exceptions): the `finally` blocks of the
PDF-attachment loop (after truncation), of the image-attachment loop (after
truncation), of the inline-image loop, and of the `other_attachments` loop. -/
def deletedTempPaths (attachments inline_images : List TempAtt) : List Nat :=
  (pdfAttachmentsOf attachments).map (fun a => a.temp_path) ++
    (imageAttachmentsOf attachments).map (fun a => a.temp_path) ++
    inline_images.map (fun a => a.temp_path) ++
    (otherAttachmentsOf attachments).map (fun a => a.temp_path)

/-- The scratch files that survive the email's processing: created but never
deleted, even on the success path. -/
def leakedTempPaths (attachments inline_images : List TempAtt) : List Nat :=
  (createdTempPaths attachments inline_images).filter
    (fun p => !((deletedTempPaths attachments inline_images).contains p))

end EmailBranch

/-! ## sync_pipeline.py : embedding batcher and orchestrator -/

namespace SyncPipeline

/-- One record of `embed_buffer` (`{"file_id", "chunk_text", "page", "section"}`);
the dict key `"section"` is a Lean keyword and is embedded as `sectionLabel`. -/
structure EmbedRec where
  file_id : Nat
  chunk_text : String
  page : Option Nat
  sectionLabel : Option String
deriving DecidableEq

/-- One staged `TaskChunk` insert (`db.add(TaskChunk(...))`), with the
embedding vector type abstract; the `section` column is embedded as
`sectionLabel`. -/
structure ChunkRow (Vec : Type) where
  file_id : Nat
  chunk_text : String
  embedding : Vec
  page : Option Nat
  sectionLabel : Option String

/-- The state `_flush_embed_buffer` reads and writes: the chunk buffer, the
`TaskChunk` rows staged on the database session, and the number of
embedding-API calls made. -/
structure EmbedState (Vec : Type) where
  buffer : List EmbedRec
  staged : List (ChunkRow Vec)
  apiCalls : Nat

/-- Embeds `_flush_embed_buffer` from `src/backend/app/services/sync_pipeline.py`.
`memHigh` is the value of `_should_skip("embedding batch")`, i.e. whether the
resident-memory probe exceeds `RSS_GUARD_MB`; `embedOutcome` is the result of
the `embed_content` network call (`.error` when it raises); `normalizeV`
stands for `_normalize` applied to each returned vector.  Control flow of the
source: empty buffer returns immediately; memory-guard skip clears the buffer
without calling the API; otherwise the API is called once, and on success one
`TaskChunk` per `zip(embed_buffer, embeddings)` pair is staged; on failure
nothing is staged; the buffer is cleared in every case. -/
def _flush_embed_buffer {Vec : Type} (normalizeV : Vec → Vec) (memHigh : Bool)
    (embedOutcome : Except String (List Vec)) (st : EmbedState Vec) : EmbedState Vec :=
  if st.buffer.isEmpty then st
  else if memHigh then { st with buffer := [] }
  else
    match embedOutcome with
    | .ok vs =>
      { st with
        apiCalls := st.apiCalls + 1,
        staged := st.staged ++ (List.zip st.buffer (vs.map normalizeV)).map
          (fun p => ⟨p.1.file_id, p.1.chunk_text, p.2, p.1.page, p.1.sectionLabel⟩),
        buffer := [] }
    | .error _ => { st with apiCalls := st.apiCalls + 1, buffer := [] }

/-- A `Task` row: key, external item id, and the latest-version pointer. -/
structure TaskRow where
  external_task_key : String
  item_id : String
  latest_snapshot_version : Option String
deriving DecidableEq

/-- A `TaskSnapshot` row, keyed by `(external_task_key, snapshot_version)`. -/
structure SnapshotRow where
  external_task_key : String
  snapshot_version : String
deriving DecidableEq

/-- The database state visible to `run_sync_pipeline`: `Task` rows,
`TaskSnapshot` rows, `TaskFile` rows (abstract type `F`) and `TaskChunk`
rows. -/
structure Db (Vec F : Type) where
  tasks : List TaskRow
  snapshots : List SnapshotRow
  files : List F
  chunks : List (ChunkRow Vec)

/-- The `SyncResult` dataclass. -/
structure SyncResult where
  status : String
  snapshot_version : Option String
deriving DecidableEq

/-- One entry of the `asset_jobs` list: `{"asset": asset, "kind": kind}`. -/
structure Job where
  asset : StorageIngest.Asset
  kind : String
deriving DecidableEq

/-- The `add_asset` accumulation of `_collect_asset_jobs`: skip assets with a
missing/empty id or an id already seen, otherwise append the job.  Dict
insertion order is preserved. -/
def addJobs (kindOf : StorageIngest.Asset → String) :
    List StorageIngest.Asset → List String → List Job → List String × List Job
  | [], seen, acc => (seen, acc)
  | a :: rest, seen, acc =>
    let aid := a.id.getD ""
    if aid = "" ∨ aid ∈ seen then addJobs kindOf rest seen acc
    else addJobs kindOf rest (seen ++ [aid]) (acc ++ [⟨a, kindOf a⟩])

/-- Embeds `_collect_asset_jobs` from `src/backend/app/services/sync_pipeline.py`:
primary assets first with their kind from `extract_asset_kinds` (defaulting
to `"attachment"`), then update assets with kind `"update_attachment"`,
de-duplicated by asset id with the first-seen entry winning.  The kinds map
produced by `extract_asset_kinds` (which parses the JSON payload of file
columns) is abstracted as the lookup `assetKinds`. -/
def _collect_asset_jobs (assetKinds : String → Option String)
    (item : StorageIngest.Item) : List Job :=
  let p := addJobs (fun a => (assetKinds (a.id.getD "")).getD "attachment") item.assets [] []
  (addJobs (fun _ => "update_attachment")
    ((item.updates.map (fun u => u.assets)).flatten) p.1 p.2).2

/-- `ALLOWED_TITLES` from `_build_column_text`. -/
def ALLOWED_TITLES : List String :=
  ["Priority", "Designer", "Time tracking", "Status", "Date Received",
   "Hour Received", "New Enq / Amend", "TP Ref", "Project Name", "Zip Code",
   "Date Completed", "Hour Completed", "Turn Around (Hours)", "Date Sort"]

/-- Python's `a or b` on optional strings: the first operand wins unless it
is `None` or empty (falsy). -/
def pyOr (a b : Option String) : Option String :=
  match a with
  | some s => if s = "" then b else some s
  | none => b

/-- Embeds `_build_column_text`: keep columns whose title is in
`ALLOWED_TITLES`, take `display_value or text or value`, skip missing/empty
values, emit `"Column: {title} | Value: {value}"` lines joined by newlines. -/
def _build_column_text (item : StorageIngest.Item) : String :=
  String.intercalate "\n" (item.column_values.filterMap (fun col =>
    match col.title with
    | none => none
    | some t =>
      if t = "" ∨ t ∉ ALLOWED_TITLES then none
      else
        match pyOr col.display_value (pyOr col.text col.value) with
        | none => none
        | some v => if v = "" then none else some ("Column: " ++ t ++ " | Value: " ++ v)))

/-- Observable phases of one `run_sync_pipeline` run, in program order:
an asset job dispatched, the asset loop broken by `_should_abort`, the
column document ingested, the final `_flush_embed_buffer()` call, and the
closing `db.commit()`. -/
inductive Phase where
  | processedJob (i : Nat)
  | abortBreak (i : Nat)
  | columnDoc
  | finalFlush
  | commit
deriving DecidableEq

/-- The external collaborators of one `run_sync_pipeline` run, made explicit:
the hash primitive, the asset-kind lookup, the per-asset processing body
(download/extract/ingest/enqueue — an arbitrary state transformer), the
column-document ingestion, the `_should_abort` memory probe at the top of
iteration `i`, and the behaviour of the final flush's memory probe and
embedding call. -/
structure Hooks (Vec F : Type) where
  sha256hex : String → String
  assetKinds : String → Option String
  processJob : Nat → Job → List F → EmbedState Vec → List F × EmbedState Vec
  colIngest : List F → EmbedState Vec → List F × EmbedState Vec
  abortAt : Nat → Bool
  finalFlushMemHigh : Bool
  finalFlushOutcome : Except String (List Vec)
  normalizeV : Vec → Vec

/-- The `for job in asset_jobs` loop of `run_sync_pipeline`: before each
iteration `_should_abort()` is consulted; if it trips, the loop breaks with
`aborted = True` and no further job is dispatched; otherwise the job is
processed and the loop continues. -/
def assetLoop {Vec F : Type} (hooks : Hooks Vec F) :
    List Job → Nat → List F → EmbedState Vec → List Phase →
      List F × EmbedState Vec × List Phase × Bool
  | [], _, files, es, tr => (files, es, tr, false)
  | j :: rest, i, files, es, tr =>
    if hooks.abortAt i then (files, es, tr ++ [Phase.abortBreak i], true)
    else
      let p := hooks.processJob i j files es
      assetLoop hooks rest (i + 1) p.1 p.2 (tr ++ [Phase.processedJob i])

/-- Embeds the driver `run_sync_pipeline`
(`src/backend/app/services/sync_pipeline.py`): task lookup (404 when
missing), fingerprint computation, the idempotent short-circuit returning
`"unchanged"` when a snapshot with this fingerprint exists and `force` is
false, snapshot creation otherwise, the asset loop with its
`_should_abort` break, the column document (only when `_build_column_text`
is non-empty), the final buffer flush, and the closing commit (staged chunk
rows persisted, the task's `latest_snapshot_version` set) returning
`"done"`.  The item is a parameter (the result of the
`fetch_item_with_assets` network call). -/
def run_sync_pipeline {Vec F : Type} (hooks : Hooks Vec F) (db : Db Vec F)
    (external_task_key : String) (item : StorageIngest.Item) (force : Bool) :
    Except String (SyncResult × Db Vec F × EmbedState Vec × List Phase) :=
  match db.tasks.find? (fun t => t.external_task_key == external_task_key) with
  | none => .error "Task not found"
  | some _task =>
    let snapshot_version := StorageIngest.compute_snapshot_version hooks.sha256hex item
    let snapshotFound := (db.snapshots.find? (fun s =>
      s.external_task_key == external_task_key &&
        s.snapshot_version == snapshot_version)).isSome
    if snapshotFound && !force then
      .ok (⟨"unchanged", some snapshot_version⟩, db, ⟨[], db.chunks, 0⟩, [])
    else
      let db1 := if snapshotFound then db
        else { db with snapshots := db.snapshots ++ [⟨external_task_key, snapshot_version⟩] }
      let jobs := _collect_asset_jobs hooks.assetKinds item
      let r := assetLoop hooks jobs 0 db1.files ⟨[], db1.chunks, 0⟩ []
      let column_text := _build_column_text item
      let afterCol :=
        if column_text = "" then (r.1, r.2.1, r.2.2.1)
        else
          let q := hooks.colIngest r.1 r.2.1
          (q.1, q.2, r.2.2.1 ++ [Phase.columnDoc])
      let es3 := _flush_embed_buffer hooks.normalizeV hooks.finalFlushMemHigh
        hooks.finalFlushOutcome afterCol.2.1
      let tasks' := db1.tasks.map (fun t =>
        if t.external_task_key == external_task_key then
          { t with latest_snapshot_version := some snapshot_version }
        else t)
      let db4 : Db Vec F :=
        { tasks := tasks', snapshots := db1.snapshots,
          files := afterCol.1, chunks := es3.staged }
      .ok (⟨"done", some snapshot_version⟩, db4, es3,
        afterCol.2.2 ++ [Phase.finalFlush, Phase.commit])

/-- Embeds `_normalize` from `src/backend/app/services/sync_pipeline.py`,
with machine floats idealised as real numbers:
`norm = sqrt(sum(v * v for v in vec))`, then `[v / norm for v in vec]` when
`norm` is truthy (non-zero), `vec` unchanged otherwise. -/
noncomputable def _normalize (vec : List ℝ) : List ℝ :=
  let norm := Real.sqrt ((vec.map (fun v => v * v)).sum)
  if norm = 0 then vec else vec.map (fun v => v / norm)

/-- The Euclidean norm of a vector, for stating the normalization claim. -/
noncomputable def euclideanNorm (vec : List ℝ) : ℝ :=
  Real.sqrt ((vec.map (fun v => v * v)).sum)

end SyncPipeline

/-! ## retrieval.py -/

namespace Retrieval

/-- Embeds `_normalize` from `src/backend/app/services/retrieval.py` (the
query-side normalization), textually identical to the document-side
`_normalize` of `sync_pipeline.py`. -/
noncomputable def _normalize (vec : List ℝ) : List ℝ :=
  let norm := Real.sqrt ((vec.map (fun v => v * v)).sum)
  if norm = 0 then vec else vec.map (fun v => v / norm)

end Retrieval

/-! ## Concrete fixtures used by witnesses and counterexamples -/

namespace Fixtures

/-- Two submitted items with distinct payloads, for exercising the thread
pool's ordering. -/
def c4Items : List (String × ThreadPool.WorkItem) :=
  [("pdf", ThreadPool.WorkItem.wdict [("filename", "a.pdf")]),
   ("image", ThreadPool.WorkItem.wdict [("filename", "b.jpg")])]

/-- A worker whose output identifies its input. -/
def c4Func : String → ThreadPool.WorkItem → Except String (String × String) :=
  fun item_type _item => Except.ok (item_type, "text of " ++ item_type)

/-- A worker that fails on images only, for exercising error isolation. -/
def c4FuncPartial : String → ThreadPool.WorkItem → Except String (String × String) :=
  fun item_type _item =>
    if item_type = "image" then Except.error "boom" else Except.ok (item_type, "ok " ++ item_type)

/-- A one-asset item fixture. -/
def exAsset : StorageIngest.Asset := ⟨some "1", some "file.txt", some ".txt"⟩

/-- An item with one primary asset and no updates or columns;
its fingerprint seed is the string of `updated_at`, a colon and the id. -/
def exItem : StorageIngest.Item := ⟨some "2024-01-01", [exAsset], [], []⟩

/-- Pipeline hooks whose external effects are all trivial and whose
memory probe always trips. -/
def exHooks : SyncPipeline.Hooks Unit Unit :=
  { sha256hex := fun s => s,
    assetKinds := fun _ => none,
    processJob := fun _ _ files es => (files, es),
    colIngest := fun files es => (files, es),
    abortAt := fun _ => true,
    finalFlushMemHigh := false,
    finalFlushOutcome := Except.ok [],
    normalizeV := fun v => v }

/-- A database with one task and an existing snapshot whose version equals
`exItem`'s fingerprint under the identity hash. -/
def exDbWithSnapshot : SyncPipeline.Db Unit Unit :=
  ⟨[⟨"t1", "item1", none⟩], [⟨"t1", "2024-01-01:1"⟩], [], []⟩

/-- A database with one task and no snapshots. -/
def exDbFresh : SyncPipeline.Db Unit Unit :=
  ⟨[⟨"t1", "item1", none⟩], [], [], []⟩

end Fixtures

/-! # Theorems -/

open PdfExtraction ThreadPool StorageIngest LlmInterface EmailBranch SyncPipeline

/-- The length of a zero byte string is its requested size. -/
theorem length_bytesOfSize (bytes : Nat) : (bytesOfSize bytes).length = bytes :=
  List.length_replicate bytes 0

/-- C8: for every list of PDF files, `should_batch_pdfs` is true iff the file
count is between 2 and 3 inclusive and the total content size is at most
100MB; in particular it is false for a single file, for four 1MB files and
for two 60MB files, and true for two 10MB files. -/
theorem C8_should_batch_iff :
    (∀ files : List PdfFile,
      should_batch_pdfs files = true ↔
        (2 ≤ files.length ∧ files.length ≤ 3 ∧
          (files.map (fun f => f.content.length)).sum ≤ 100 * 1024 * 1024)) ∧
    should_batch_pdfs [pdfOfSize "a" (10 * 1024 * 1024)] = false ∧
    should_batch_pdfs
      [pdfOfSize "a" (1024 * 1024), pdfOfSize "b" (1024 * 1024),
       pdfOfSize "c" (1024 * 1024), pdfOfSize "d" (1024 * 1024)] = false ∧
    should_batch_pdfs
      [pdfOfSize "a" (60 * 1024 * 1024), pdfOfSize "b" (60 * 1024 * 1024)] = false ∧
    should_batch_pdfs
      [pdfOfSize "a" (10 * 1024 * 1024), pdfOfSize "b" (10 * 1024 * 1024)] = true := by
  refine ⟨fun files => ?_, ?_, ?_, ?_, ?_⟩
  · simp only [should_batch_pdfs, Bool.and_eq_true, decide_eq_true_eq]
    omega
  all_goals
    simp [should_batch_pdfs, pdfOfSize, length_bytesOfSize]

/-- Helper: `_flush_embed_buffer` leaves the buffer empty on every path. -/
theorem flush_buffer_nil {Vec : Type} (normalizeV : Vec → Vec) (memHigh : Bool)
    (embedOutcome : Except String (List Vec)) (st : EmbedState Vec) :
    (_flush_embed_buffer normalizeV memHigh embedOutcome st).buffer = [] := by
  unfold _flush_embed_buffer
  by_cases hb : st.buffer.isEmpty
  · simp [hb, List.isEmpty_iff.mp hb]
  · cases memHigh with
    | true => simp [hb]
    | false => cases embedOutcome <;> simp [hb]

/-- C10: when `_flush_embed_buffer` runs under the soft memory guard
(`_should_skip` true, modelled by `memHigh = true`) it clears the buffered
chunk records and returns without calling the embedding API and without
staging any chunk inserts — the buffered chunks are dropped; and after every
call to `_flush_embed_buffer`, on any path, the buffer is empty. -/
theorem C10_flush_soft_memory_drop {Vec : Type} (normalizeV : Vec → Vec)
    (embedOutcome : Except String (List Vec)) (st : EmbedState Vec) :
    ((_flush_embed_buffer normalizeV true embedOutcome st).buffer = [] ∧
     (_flush_embed_buffer normalizeV true embedOutcome st).staged = st.staged ∧
     (_flush_embed_buffer normalizeV true embedOutcome st).apiCalls = st.apiCalls) ∧
    (∀ (memHigh : Bool) (outcome' : Except String (List Vec)),
      (_flush_embed_buffer normalizeV memHigh outcome' st).buffer = []) := by
  constructor
  · unfold _flush_embed_buffer
    by_cases hb : st.buffer.isEmpty
    · simp [hb, List.isEmpty_iff.mp hb]
    · simp [hb]
  · intro memHigh outcome'
    exact flush_buffer_nil normalizeV memHigh outcome' st

/-- C5 (failing-input evaluation): an email carrying a single non-inline
`.gif` attachment written to scratch file `0` by
`process_email_content_to_temp` ends its processing with that scratch file
still on disk — the email branch of `run_sync_pipeline` unlinks scratch
files only in its PDF, whitelisted-image, inline-image and
`other_attachments` loops, and a non-inline `.gif` belongs to none of them,
so the claimed guaranteed cleanup fails even on the success path. -/
theorem C5_gif_attachment_scratch_leak :
    leakedTempPaths [⟨"diagram.gif", 0⟩] [] = [0] ∧
    deletedTempPaths [⟨"diagram.gif", 0⟩] [] = [] := by
  constructor <;> rfl

/-- C4 (counterexample): `process_items_in_parallel` does not return results
in the input order of the items.  With two items and the completion schedule
that finishes the second item first (a permutation of the future set), the
returned list is the reverse of the input-order result list. -/
theorem C4_input_order_counterexample :
    ([1, 0].Perm (List.range Fixtures.c4Items.length)) ∧
    process_items_in_parallel Fixtures.c4Items Fixtures.c4Func [1, 0] ≠
      Fixtures.c4Items.map (processOne Fixtures.c4Func) := by
  constructor
  · decide
  · decide

/-- C4 (amended): for every list of items and every completion schedule (a
permutation of the submitted futures), `process_items_in_parallel` returns
one result per item in completion order — not input order — and the result
multiset is exactly one entry per item, where an exception while processing
an item yields that item's error placeholder string without affecting the
results of the other items (each entry is `processOne` of its own item
alone). -/
theorem C4_completion_order_and_isolation
    (items : List (String × WorkItem))
    (f : String → WorkItem → Except String (String × String))
    (completion : List Nat)
    (h : completion.Perm (List.range items.length)) :
    process_items_in_parallel items f completion =
      completion.map (fun i => processOne f (items.getD i default)) ∧
    (process_items_in_parallel items f completion).Perm
      (items.map (processOne f)) := by
  have hmem : ∀ i ∈ completion, i < items.length := by
    intro i hi
    have := h.mem_iff.mp hi
    simpa [List.mem_range] using this
  have aux : ∀ l : List Nat, (∀ i ∈ l, i < items.length) →
      l.filterMap (fun i => (items[i]?).map (processOne f)) =
        l.map (fun i => processOne f (items.getD i default)) := by
    intro l
    induction l with
    | nil => intro _; rfl
    | cons a t ih =>
      intro hl
      have ha : a < items.length := hl a (List.mem_cons_self a t)
      have hsome : items[a]? = some items[a] := List.getElem?_eq_getElem ha
      have hgetD : items.getD a default = items[a] := by
        rw [List.getD_eq_getElem?_getD, hsome, Option.getD_some]
      rw [List.filterMap_cons, hsome, List.map_cons, hgetD,
        ih (fun i hi => hl i (List.mem_cons_of_mem a hi))]
      rfl
  have heq : process_items_in_parallel items f completion =
      completion.map (fun i => processOne f (items.getD i default)) :=
    aux completion hmem
  refine ⟨heq, ?_⟩
  rw [heq]
  have hperm := h.map (fun i => processOne f (items.getD i default))
  have hrange : (List.range items.length).map
      (fun i => processOne f (items.getD i default)) = items.map (processOne f) := by
    apply List.ext_getElem
    · simp
    · intro i h1 h2
      simp only [List.getElem_map, List.getElem_range]
      rw [List.getD_eq_getElem?_getD,
        List.getElem?_eq_getElem (by simpa using h2), Option.getD_some]
  rw [hrange] at hperm
  exact hperm

/-- C4 witness: the amended statement applied at a two-item list with a
worker that fails on the second item and the completion schedule finishing
the second item first. -/
theorem C4_completion_order_and_isolation_witness :
    ([1, 0].Perm (List.range Fixtures.c4Items.length)) ∧
    (process_items_in_parallel Fixtures.c4Items Fixtures.c4FuncPartial [1, 0] =
      [1, 0].map (fun i => processOne Fixtures.c4FuncPartial (Fixtures.c4Items.getD i default)) ∧
     (process_items_in_parallel Fixtures.c4Items Fixtures.c4FuncPartial [1, 0]).Perm
       (Fixtures.c4Items.map (processOne Fixtures.c4FuncPartial))) :=
  ⟨by decide, C4_completion_order_and_isolation Fixtures.c4Items Fixtures.c4FuncPartial [1, 0] (by decide)⟩

/-- C9: for every real vector of non-zero Euclidean norm, `_normalize`
returns a vector of Euclidean norm 1 (each component divided by the norm);
`_normalize` of a zero vector returns it unchanged; and the document-side
(`sync_pipeline._normalize`) and query-side (`retrieval._normalize`)
functions are extensionally equal.  Machine floats are idealised as real
numbers. -/
theorem C9_normalize_unit_norm :
    (∀ v : List ℝ, euclideanNorm v ≠ 0 →
      euclideanNorm (SyncPipeline._normalize v) = 1) ∧
    (∀ n : Nat, SyncPipeline._normalize (List.replicate n 0) = List.replicate n 0) ∧
    (∀ v : List ℝ, SyncPipeline._normalize v = Retrieval._normalize v) := by
  refine ⟨?_, ?_, fun v => rfl⟩
  · intro v h
    unfold euclideanNorm at *
    simp only [SyncPipeline._normalize]
    rw [if_neg h]
    have hS0 : 0 ≤ (v.map (fun x => x * x)).sum := by
      apply List.sum_nonneg
      intro x hx
      obtain ⟨y, _, rfl⟩ := List.mem_map.mp hx
      exact mul_self_nonneg y
    have hSne : (v.map (fun x => x * x)).sum ≠ 0 := by
      intro h0
      exact h (by rw [h0, Real.sqrt_zero])
    rw [List.map_map]
    have hcomp : ((fun x => x * x) ∘
        fun x => x / Real.sqrt ((v.map (fun x => x * x)).sum)) =
        fun x => (x * x) *
          (Real.sqrt ((v.map (fun x => x * x)).sum) *
            Real.sqrt ((v.map (fun x => x * x)).sum))⁻¹ := by
      funext x
      simp only [Function.comp, division_def, mul_inv]
      ring
    rw [hcomp, List.sum_map_mul_right, Real.mul_self_sqrt hS0,
      mul_inv_cancel₀ hSne, Real.sqrt_one]
  · intro n
    simp only [SyncPipeline._normalize]
    rw [if_pos]
    rw [List.map_replicate, mul_zero, List.sum_replicate, smul_zero, Real.sqrt_zero]

/-- C9 witness: the unit-norm statement applied at the concrete vector
with components 1 and 0, whose norm is 1 and in particular non-zero. -/
theorem C9_normalize_unit_norm_witness :
    euclideanNorm [(1 : ℝ), 0] ≠ 0 ∧
    euclideanNorm (SyncPipeline._normalize [(1 : ℝ), 0]) = 1 := by
  have h : euclideanNorm [(1 : ℝ), 0] ≠ 0 := by
    unfold euclideanNorm
    simp
  exact ⟨h, C9_normalize_unit_norm.1 [(1 : ℝ), 0] h⟩

/-- Helper: `Char` values with the same code point are equal. -/
theorem char_toNat_injective (x y : Char) (h : x.toNat = y.toNat) : x = y :=
  Char.ofNat_toNat x ▸ Char.ofNat_toNat y ▸ congrArg Char.ofNat h

/-- Helper: strings with the same character data are equal. -/
theorem string_data_injective (a b : String) (h : a.data = b.data) : a = b := by
  cases a
  cases b
  exact congrArg String.mk h

/-- Helper: lexicographic comparison is total. -/
theorem lexLe_total (a : List Char) : ∀ b, lexLe a b = true ∨ lexLe b a = true := by
  induction a with
  | nil => intro b; left; rfl
  | cons x xs ih =>
    intro b
    cases b with
    | nil => right; rfl
    | cons y ys =>
      by_cases h1 : x.toNat < y.toNat
      · left; simp [lexLe, h1]
      · by_cases h2 : y.toNat < x.toNat
        · right; simp [lexLe, h2]
        · rcases ih ys with h | h
          · left; simp [lexLe, h1, h2, h]
          · right; simp [lexLe, h1, h2, h]

/-- Helper: lexicographic comparison is transitive. -/
theorem lexLe_trans (a : List Char) :
    ∀ b c, lexLe a b = true → lexLe b c = true → lexLe a c = true := by
  induction a with
  | nil => intro b c _ _; rfl
  | cons x xs ih =>
    intro b c hab hbc
    cases b with
    | nil => simp [lexLe] at hab
    | cons y ys =>
      cases c with
      | nil => simp [lexLe] at hbc
      | cons z zs =>
        by_cases hxy : x.toNat < y.toNat
        · by_cases hyz : y.toNat < z.toNat
          · simp [lexLe, show x.toNat < z.toNat by omega]
          · by_cases hzy : z.toNat < y.toNat
            · simp [lexLe, hyz, hzy] at hbc
            · simp [lexLe, show x.toNat < z.toNat by omega]
        · by_cases hyx : y.toNat < x.toNat
          · simp [lexLe, hxy, hyx] at hab
          · have hab' : lexLe xs ys = true := by simpa [lexLe, hxy, hyx] using hab
            by_cases hyz : y.toNat < z.toNat
            · simp [lexLe, show x.toNat < z.toNat by omega]
            · by_cases hzy : z.toNat < y.toNat
              · simp [lexLe, hyz, hzy] at hbc
              · have hbc' : lexLe ys zs = true := by simpa [lexLe, hyz, hzy] using hbc
                simp [lexLe, show ¬ x.toNat < z.toNat by omega,
                  show ¬ z.toNat < x.toNat by omega, ih ys zs hab' hbc']

/-- Helper: lexicographic comparison is antisymmetric. -/
theorem lexLe_antisymm (a : List Char) :
    ∀ b, lexLe a b = true → lexLe b a = true → a = b := by
  induction a with
  | nil =>
    intro b _ hba
    cases b with
    | nil => rfl
    | cons y ys => simp [lexLe] at hba
  | cons x xs ih =>
    intro b hab hba
    cases b with
    | nil => simp [lexLe] at hab
    | cons y ys =>
      by_cases hxy : x.toNat < y.toNat
      · simp [lexLe, hxy, show ¬ y.toNat < x.toNat by omega] at hba
      · by_cases hyx : y.toNat < x.toNat
        · simp [lexLe, hxy, hyx] at hab
        · have hab' : lexLe xs ys = true := by simpa [lexLe, hxy, hyx] using hab
          have hba' : lexLe ys xs = true := by simpa [lexLe, hxy, hyx] using hba
          rw [char_toNat_injective x y (by omega), ih ys hab' hba']

instance : IsTotal String StrLe :=
  ⟨fun a b => lexLe_total a.data b.data⟩

instance : IsTrans String StrLe :=
  ⟨fun a b c => lexLe_trans a.data b.data c.data⟩

instance : IsAntisymm String StrLe :=
  ⟨fun a b hab hba => string_data_injective a b (lexLe_antisymm a.data b.data hab hba)⟩

/-- C3: `compute_snapshot_version` equals the hash of the seed built from
the item's last-updated timestamp and the sorted set of all asset ids
(primary and update assets); two items with the same `updated_at` and the
same asset-id set — in any listing order or multiplicity — get identical
fingerprint strings; and computing the fingerprint twice on the same item
yields the same string. -/
theorem C3_fingerprint_determinism
    (sha256hex : String → String) (item1 item2 : Item)
    (hup : item1.updated_at = item2.updated_at)
    (h12 : ∀ s ∈ assetIdList item1, s ∈ assetIdList item2)
    (h21 : ∀ s ∈ assetIdList item2, s ∈ assetIdList item1) :
    compute_snapshot_version sha256hex item1 = compute_snapshot_version sha256hex item2 ∧
    (∀ item : Item, compute_snapshot_version sha256hex item = sha256hex (snapshotSeed item)) ∧
    (∀ item : Item,
      compute_snapshot_version sha256hex item = compute_snapshot_version sha256hex item) := by
  refine ⟨?_, fun _ => rfl, fun _ => rfl⟩
  have hd : (assetIdList item1).dedup.Perm (assetIdList item2).dedup := by
    rw [List.perm_ext_iff_of_nodup (List.nodup_dedup _) (List.nodup_dedup _)]
    intro a
    simp only [List.mem_dedup]
    exact ⟨h12 a, h21 a⟩
  have hsorted : sortedAssetIds item1 = sortedAssetIds item2 := by
    unfold sortedAssetIds
    exact List.eq_of_perm_of_sorted
      ((List.perm_insertionSort _ _).trans (hd.trans (List.perm_insertionSort _ _).symm))
      (List.sorted_insertionSort _ _) (List.sorted_insertionSort _ _)
  unfold compute_snapshot_version snapshotSeed
  rw [hup, hsorted]

/-- C3 witness: two concrete items with the same timestamp and asset-id set
listed in different order and multiplicity (one lists ids 2 then 1 as
primary assets, the other id 1 as primary and ids 2, 1 under an update)
receive the same fingerprint. -/
theorem C3_fingerprint_determinism_witness :
    (Item.mk (some "2024") [⟨some "2", none, none⟩, ⟨some "1", none, none⟩] [] []).updated_at =
      (Item.mk (some "2024") [⟨some "1", none, none⟩]
        [⟨[⟨some "2", none, none⟩, ⟨some "1", none, none⟩]⟩] []).updated_at ∧
    compute_snapshot_version (fun s => s)
        (Item.mk (some "2024") [⟨some "2", none, none⟩, ⟨some "1", none, none⟩] [] []) =
      compute_snapshot_version (fun s => s)
        (Item.mk (some "2024") [⟨some "1", none, none⟩]
          [⟨[⟨some "2", none, none⟩, ⟨some "1", none, none⟩]⟩] []) :=
  ⟨rfl,
    (C3_fingerprint_determinism (fun s => s)
      (Item.mk (some "2024") [⟨some "2", none, none⟩, ⟨some "1", none, none⟩] [] [])
      (Item.mk (some "2024") [⟨some "1", none, none⟩]
        [⟨[⟨some "2", none, none⟩, ⟨some "1", none, none⟩]⟩] [])
      rfl (by decide) (by decide)).1⟩

/-- C1: when the fetched item's fingerprint already has a Snapshot row and
`force` is false, `run_sync_pipeline` returns status `"unchanged"` with that
fingerprint and the database is returned exactly as it was — no File or
Chunk rows (nor any other row) are created, updated or deleted. -/
theorem C1_unchanged_short_circuit {Vec F : Type} (hooks : Hooks Vec F)
    (db : Db Vec F) (external_task_key : String) (item : Item)
    (htask : (db.tasks.find? (fun t =>
      t.external_task_key == external_task_key)).isSome = true)
    (hsnap : (db.snapshots.find? (fun s =>
      s.external_task_key == external_task_key &&
        s.snapshot_version ==
          compute_snapshot_version hooks.sha256hex item)).isSome = true) :
    run_sync_pipeline hooks db external_task_key item false =
      .ok (⟨"unchanged", some (compute_snapshot_version hooks.sha256hex item)⟩,
        db, ⟨[], db.chunks, 0⟩, []) := by
  obtain ⟨t, ht⟩ := Option.isSome_iff_exists.mp htask
  unfold run_sync_pipeline
  rw [ht]
  simp [hsnap]

/-- C1 witness: the short-circuit applied at a concrete database holding a
snapshot whose version equals the fixture item's fingerprint under the
identity hash. -/
theorem C1_unchanged_short_circuit_witness :
    ((Fixtures.exDbWithSnapshot.tasks.find? (fun t =>
      t.external_task_key == "t1")).isSome = true) ∧
    ((Fixtures.exDbWithSnapshot.snapshots.find? (fun s =>
      s.external_task_key == "t1" &&
        s.snapshot_version ==
          compute_snapshot_version Fixtures.exHooks.sha256hex Fixtures.exItem)).isSome = true) ∧
    run_sync_pipeline Fixtures.exHooks Fixtures.exDbWithSnapshot "t1" Fixtures.exItem false =
      .ok (⟨"unchanged",
          some (compute_snapshot_version Fixtures.exHooks.sha256hex Fixtures.exItem)⟩,
        Fixtures.exDbWithSnapshot, ⟨[], Fixtures.exDbWithSnapshot.chunks, 0⟩, []) :=
  ⟨by decide, by decide,
    C1_unchanged_short_circuit Fixtures.exHooks Fixtures.exDbWithSnapshot "t1" Fixtures.exItem
      (by decide) (by decide)⟩

/-- Helper: when the memory probe first trips at iteration `k` (relative to
starting index `i`) and at least `k + 1` jobs remain, the asset loop
processes exactly the first `k` jobs, records the break, and reports
`aborted = true`. -/
theorem assetLoop_abort {Vec F : Type} (hooks : Hooks Vec F) :
    ∀ (k : Nat) (jobs : List Job) (i : Nat) (files : List F)
      (es : EmbedState Vec) (tr : List Phase),
      (∀ j, j < k → hooks.abortAt (i + j) = false) →
      hooks.abortAt (i + k) = true →
      k < jobs.length →
      ∃ files' es',
        assetLoop hooks jobs i files es tr =
          (files', es',
            tr ++ ((List.range k).map (fun j => Phase.processedJob (i + j)) ++
              [Phase.abortBreak (i + k)]), true) := by
  intro k
  induction k with
  | zero =>
    intro jobs i files es tr _ habort hlen
    cases jobs with
    | nil => simp at hlen
    | cons j rest =>
      refine ⟨files, es, ?_⟩
      have h0 : hooks.abortAt i = true := by simpa using habort
      simp [assetLoop, h0]
  | succ k ih =>
    intro jobs i files es tr hfalse habort hlen
    cases jobs with
    | nil => simp at hlen
    | cons j rest =>
      have h0 : hooks.abortAt i = false := by simpa using hfalse 0 (Nat.succ_pos k)
      have hshift : i + (k + 1) = (i + 1) + k := by omega
      obtain ⟨f', e', heq⟩ := ih rest (i + 1) (hooks.processJob i j files es).1
        (hooks.processJob i j files es).2 (tr ++ [Phase.processedJob i])
        (fun j' hj' => by
          have := hfalse (j' + 1) (by omega)
          simpa [show i + (j' + 1) = (i + 1) + j' by omega] using this)
        (by rw [← hshift]; exact habort)
        (by simpa using hlen)
      refine ⟨f', e', ?_⟩
      have hstep : assetLoop hooks (j :: rest) i files es tr =
          assetLoop hooks rest (i + 1) (hooks.processJob i j files es).1
            (hooks.processJob i j files es).2 (tr ++ [Phase.processedJob i]) := by
        simp [assetLoop, h0]
      rw [hstep, heq]
      have hmap : (List.range k).map ((fun j' => Phase.processedJob (i + j')) ∘ Nat.succ) =
          (List.range k).map (fun j' => Phase.processedJob ((i + 1) + j')) := by
        apply List.map_congr_left
        intro a _
        exact congrArg Phase.processedJob (by omega)
      rw [hshift, List.range_succ_eq_map, List.map_cons, List.map_map, hmap]
      simp

/-- C7: when the hard memory check (`_should_abort`) first trips at the top
of asset-loop iteration `k` and further jobs remained, `run_sync_pipeline`
dispatches no further asset job (the trace contains `processedJob i` only
for `i < k`), yet still proceeds to the column-document step, issues the
final embedding-buffer flush (leaving the buffer empty), commits — the
returned database carries the staged chunk work produced so far — and
returns status `"done"` rather than rolling back. -/
theorem C7_hard_abort_partial_commit {Vec F : Type} (hooks : Hooks Vec F)
    (db : Db Vec F) (external_task_key : String) (item : Item) (k : Nat)
    (htask : (db.tasks.find? (fun t =>
      t.external_task_key == external_task_key)).isSome = true)
    (hsnap : (db.snapshots.find? (fun s =>
      s.external_task_key == external_task_key &&
        s.snapshot_version ==
          compute_snapshot_version hooks.sha256hex item)).isSome = false)
    (hfalse : ∀ j, j < k → hooks.abortAt j = false)
    (habort : hooks.abortAt k = true)
    (hk : k < (_collect_asset_jobs hooks.assetKinds item).length) :
    match run_sync_pipeline hooks db external_task_key item false with
    | .error _ => False
    | .ok (res, db', es', tr) =>
      res = ⟨"done", some (compute_snapshot_version hooks.sha256hex item)⟩ ∧
      tr = (((List.range k).map Phase.processedJob ++ [Phase.abortBreak k]) ++
          (if _build_column_text item = "" then [] else [Phase.columnDoc])) ++
          [Phase.finalFlush, Phase.commit] ∧
      es'.buffer = [] ∧
      db'.chunks = es'.staged ∧
      (∀ i : Nat, Phase.processedJob i ∈ tr → i < k) := by
  obtain ⟨t, ht⟩ := Option.isSome_iff_exists.mp htask
  obtain ⟨f', e', hloop⟩ := assetLoop_abort hooks k
    (_collect_asset_jobs hooks.assetKinds item) 0
    ({ db with snapshots := db.snapshots ++
      [⟨external_task_key, compute_snapshot_version hooks.sha256hex item⟩] } : Db Vec F).files
    ⟨[], ({ db with snapshots := db.snapshots ++
      [⟨external_task_key, compute_snapshot_version hooks.sha256hex item⟩] } : Db Vec F).chunks, 0⟩
    [] (fun j hj => by simpa using hfalse j hj) (by simpa using habort) hk
  simp only [Nat.zero_add, List.nil_append] at hloop
  unfold run_sync_pipeline
  rw [ht]
  simp only [hsnap, Bool.false_and, Bool.false_eq_true, if_false, Bool.not_false,
    Bool.and_true]
  rw [hloop]
  by_cases hcol : _build_column_text item = ""
  · simp [hcol, flush_buffer_nil]
  · simp [hcol, flush_buffer_nil]

/-- C7 witness: the partial-commit behaviour applied at a fresh concrete
database, the fixture item with one asset, and hooks whose memory probe
trips immediately (`k = 0`). -/
theorem C7_hard_abort_partial_commit_witness :
    (((Fixtures.exDbFresh.tasks.find? (fun t =>
        t.external_task_key == "t1")).isSome = true) ∧
     ((Fixtures.exDbFresh.snapshots.find? (fun s =>
        s.external_task_key == "t1" &&
          s.snapshot_version ==
            compute_snapshot_version Fixtures.exHooks.sha256hex Fixtures.exItem)).isSome = false) ∧
     (∀ j, j < 0 → Fixtures.exHooks.abortAt j = false) ∧
     Fixtures.exHooks.abortAt 0 = true ∧
     0 < (_collect_asset_jobs Fixtures.exHooks.assetKinds Fixtures.exItem).length) ∧
    (match run_sync_pipeline Fixtures.exHooks Fixtures.exDbFresh "t1" Fixtures.exItem false with
     | .error _ => False
     | .ok (res, db', es', tr) =>
       res = ⟨"done",
         some (compute_snapshot_version Fixtures.exHooks.sha256hex Fixtures.exItem)⟩ ∧
       tr = (((List.range 0).map Phase.processedJob ++ [Phase.abortBreak 0]) ++
           (if _build_column_text Fixtures.exItem = "" then [] else [Phase.columnDoc])) ++
           [Phase.finalFlush, Phase.commit] ∧
       es'.buffer = [] ∧
       db'.chunks = es'.staged ∧
       (∀ i : Nat, Phase.processedJob i ∈ tr → i < 0)) :=
  ⟨⟨by decide, by decide, by decide, by decide, by decide⟩,
    C7_hard_abort_partial_commit Fixtures.exHooks Fixtures.exDbFresh "t1" Fixtures.exItem 0
      (by decide) (by decide) (by decide) (by decide) (by decide)⟩

/-- Helper: full characterisation of the retry loop from any counter value:
the trace is slot-safe, the sleeps are exactly the exponential-backoff
schedule over the performed retries, only rate-limit failures are retried,
the retry counter never exceeds `max_retries`, and the result is the decisive
attempt's outcome (propagated error or success). -/
theorem retryFrom_spec {α : Type} (outcome : Nat → AttemptOutcome α) (jitter : Nat → ℚ)
    (b : ℚ) (mr : Nat) :
    ∀ (fuel retries : Nat), mr - retries = fuel →
      slotSafe (retryFrom outcome jitter b mr retries).1 = true ∧
      sleepsOf (retryFrom outcome jitter b mr retries).1 =
        (List.range' retries (retryCount outcome mr retries - retries)).map
          (fun j => b * 2 ^ j + jitter j) ∧
      retries ≤ retryCount outcome mr retries ∧
      (retries ≤ mr → retryCount outcome mr retries ≤ mr) ∧
      (∀ j, retries ≤ j → j < retryCount outcome mr retries →
        ∃ msg, outcome j = .exn msg ∧ is_rate_limit_error msg = true) ∧
      ((retryFrom outcome jitter b mr retries).2 =
        match outcome (retryCount outcome mr retries) with
        | .acquireTimeout => .error acquireFailMsg
        | .ok v => .ok v
        | .exn m => .error m) := by
  intro fuel
  induction fuel with
  | zero =>
    intro retries hfr
    have hge : mr ≤ retries := by omega
    rcases ho : outcome retries with _ | v | msg
    · unfold retryFrom retryCount
      rw [ho]
      simp [slotSafe, slotOkFrom, sleepsOf, ho]
      intro j hj1 hj2
      exact absurd hj2 (by omega)
    · unfold retryFrom retryCount
      rw [ho]
      simp [slotSafe, slotOkFrom, sleepsOf, ho]
      intro j hj1 hj2
      exact absurd hj2 (by omega)
    · have hcond : ¬(is_rate_limit_error msg = true ∧ retries < mr) :=
        fun hh => absurd hh.2 (by omega)
      unfold retryFrom retryCount
      rw [ho]
      simp [slotSafe, slotOkFrom, sleepsOf, hcond]
      exact ⟨fun j hj1 hj2 => absurd hj2 (by omega), by rw [ho]⟩
  | succ fuel ih =>
    intro retries hfr
    rcases ho : outcome retries with _ | v | msg
    · unfold retryFrom retryCount
      rw [ho]
      simp [slotSafe, slotOkFrom, sleepsOf, ho]
      intro j hj1 hj2
      exact absurd hj2 (by omega)
    · unfold retryFrom retryCount
      rw [ho]
      simp [slotSafe, slotOkFrom, sleepsOf, ho]
      intro j hj1 hj2
      exact absurd hj2 (by omega)
    · by_cases hcond : is_rate_limit_error msg = true ∧ retries < mr
      · have hIH := ih (retries + 1) (by omega)
        obtain ⟨ih1, ih2, ih3, ih4, ih5, ih6⟩ := hIH
        have hcount : retryCount outcome mr retries =
            retryCount outcome mr (retries + 1) := by
          conv_lhs => unfold retryCount
          rw [ho]
          simp [hcond]
        have hunfold : retryFrom outcome jitter b mr retries =
            (Ev.acquire :: Ev.release :: Ev.sleep (b * 2 ^ retries + jitter retries) ::
                (retryFrom outcome jitter b mr (retries + 1)).1,
              (retryFrom outcome jitter b mr (retries + 1)).2) := by
          conv_lhs => unfold retryFrom
          rw [ho]
          simp [hcond]
        rw [hunfold, hcount]
        refine ⟨?_, ?_, by omega, fun _ => ih4 (by omega), ?_, ih6⟩
        · simpa [slotSafe, slotOkFrom] using ih1
        · have hlen : retryCount outcome mr (retries + 1) - retries =
              (retryCount outcome mr (retries + 1) - (retries + 1)) + 1 := by omega
          simp only [sleepsOf, List.filterMap_cons]
          rw [hlen, List.range'_succ, List.map_cons]
          simpa [sleepsOf] using ih2
        · intro j hj1 hj2
          rcases Nat.eq_or_lt_of_le hj1 with rfl | hj1'
          · exact ⟨msg, ho, hcond.1⟩
          · exact ih5 j hj1' hj2
      · unfold retryFrom retryCount
        rw [ho]
        simp [slotSafe, slotOkFrom, sleepsOf, hcond]
        exact ⟨fun j hj1 hj2 => absurd hj2 (by omega), by rw [ho]⟩

/-- C6: `gemini_api_with_retry` retries only attempts whose error carries a
rate-limit/quota signal (`is_rate_limit_error`), sleeps
`initial_backoff * 2 ^ attempt` plus the attempt's jitter before each retry,
performs at most `max_retries` retries, propagates the decisive attempt's
error to the caller (non-transient failure or exhaustion) or returns its
value, and its event trace is slot-safe: the limiter slot acquired for an
attempt is released before every sleep, propagated exception or return. -/
theorem C6_retry_backoff_release {α : Type} (outcome : Nat → AttemptOutcome α)
    (jitter : Nat → ℚ) (initial_backoff : ℚ) (max_retries : Nat) :
    slotSafe (gemini_api_with_retry outcome jitter initial_backoff max_retries).1 = true ∧
    retryCount outcome max_retries 0 ≤ max_retries ∧
    (∀ j, j < retryCount outcome max_retries 0 →
      ∃ msg, outcome j = .exn msg ∧ is_rate_limit_error msg = true) ∧
    sleepsOf (gemini_api_with_retry outcome jitter initial_backoff max_retries).1 =
      (List.range (retryCount outcome max_retries 0)).map
        (fun j => initial_backoff * 2 ^ j + jitter j) ∧
    ((gemini_api_with_retry outcome jitter initial_backoff max_retries).2 =
      match outcome (retryCount outcome max_retries 0) with
      | .acquireTimeout => .error acquireFailMsg
      | .ok v => .ok v
      | .exn m => .error m) := by
  obtain ⟨h1, h2, h3, h4, h5, h6⟩ :=
    retryFrom_spec outcome jitter initial_backoff max_retries (max_retries - 0) 0 rfl
  unfold gemini_api_with_retry
  refine ⟨h1, h4 (Nat.zero_le _), fun j hj => h5 j (Nat.zero_le _) hj, ?_, h6⟩
  rw [h2, List.range_eq_range']
  simp

/-- Helper: full specification of the chunking loop started at `start` with
sufficient fuel: the produced list is non-empty, begins at `start`, its last
window ends at the text length, every window is the slice
`text[start:min(len, start + size)]` and is non-degenerate, consecutive
windows satisfy `next.start + overlap = previous.stop` with strictly
increasing stops (overlap of exactly `overlap` characters), and the windows
cover `[start, len)`. -/
theorem chunkAux_spec (text : List Char) (size overlap : Nat) (hso : overlap < size) :
    ∀ (fuel start : Nat), start < text.length → text.length - start < fuel →
      ∃ c cs, chunkAux text size overlap fuel start = c :: cs ∧
        c.start = start ∧
        (∀ d ∈ c :: cs, d.stop = min text.length (d.start + size) ∧ d.start < d.stop ∧
          d.text = (text.drop d.start).take (d.stop - d.start)) ∧
        (∀ x, (c :: cs).getLast? = some x → x.stop = text.length) ∧
        List.Chain' (fun a b => b.start + overlap = a.stop ∧ a.stop < b.stop) (c :: cs) ∧
        (∀ i, start ≤ i → i < text.length → ∃ d ∈ c :: cs, d.start ≤ i ∧ i < d.stop) := by
  intro fuel
  induction fuel with
  | zero =>
    intro start h1 h2
    omega
  | succ fuel ih =>
    intro start h1 h2
    set e := min text.length (start + size) with he
    have hstep : chunkAux text size overlap (fuel + 1) start =
        if text.length ≤ e then [⟨(text.drop start).take (e - start), start, e⟩]
        else (⟨(text.drop start).take (e - start), start, e⟩ : Chunk) ::
          chunkAux text size overlap fuel (e - overlap) := by
      simp only [chunkAux, if_pos h1, he]
    by_cases hend : text.length ≤ e
    · rw [hstep, if_pos hend]
      refine ⟨_, [], rfl, rfl, ?_, ?_, ?_, ?_⟩
      · intro d hd
        rw [List.mem_singleton] at hd
        subst hd
        exact ⟨rfl, by show start < e; omega, rfl⟩
      · intro x hx
        rw [List.getLast?_singleton, Option.some_inj] at hx
        subst hx
        show e = text.length
        omega
      · exact List.chain'_singleton _
      · intro i hi1 hi2
        exact ⟨_, List.mem_singleton_self _, hi1, by show i < e; omega⟩
    · rw [hstep, if_neg hend]
      have hlen : e = start + size := by omega
      have hns1 : e - overlap < text.length := by omega
      have hns2 : text.length - (e - overlap) < fuel := by omega
      obtain ⟨c', cs', heq, hstart', hall', hlast', hchain', hcov'⟩ :=
        ih (e - overlap) hns1 hns2
      rw [heq]
      refine ⟨_, c' :: cs', rfl, rfl, ?_, ?_, ?_, ?_⟩
      · intro d hd
        rcases List.mem_cons.mp hd with hd | hd
        · subst hd
          exact ⟨he, by show start < e; omega, rfl⟩
        · exact hall' d hd
      · intro x hx
        rw [List.getLast?_cons_cons] at hx
        exact hlast' x hx
      · rw [List.chain'_cons]
        have hcstop := (hall' c' (List.mem_cons_self c' cs')).1
        refine ⟨⟨?_, ?_⟩, hchain'⟩
        · show c'.start + overlap = e
          omega
        · show e < c'.stop
          omega
      · intro i hi1 hi2
        by_cases hie : i < e
        · exact ⟨_, List.mem_cons_self _ _, hi1, hie⟩
        · obtain ⟨d, hd, hd1, hd2⟩ := hcov' i (by omega) hi2
          exact ⟨d, List.mem_cons_of_mem _ hd, hd1, hd2⟩

/-- Helper: the chunking loop's result does not depend on the fuel value,
provided the fuel exceeds the remaining text length — i.e. the source's
`while` loop terminates, even when the length is an exact multiple of
`size - overlap`. -/
theorem chunkAux_fuel_eq (text : List Char) (size overlap : Nat) (hso : overlap < size) :
    ∀ (f1 f2 start : Nat), text.length - start < f1 → text.length - start < f2 →
      chunkAux text size overlap f1 start = chunkAux text size overlap f2 start := by
  intro f1
  induction f1 with
  | zero =>
    intro f2 start h1 h2
    omega
  | succ f1 ih =>
    intro f2 start h1 h2
    cases f2 with
    | zero => omega
    | succ f2 =>
      by_cases hs : start < text.length
      · set e := min text.length (start + size) with he
        have hstep : ∀ f : Nat, chunkAux text size overlap (f + 1) start =
            if text.length ≤ e then [⟨(text.drop start).take (e - start), start, e⟩]
            else (⟨(text.drop start).take (e - start), start, e⟩ : Chunk) ::
              chunkAux text size overlap f (e - overlap) := by
          intro f
          simp only [chunkAux, if_pos hs, he]
        rw [hstep f1, hstep f2]
        by_cases hend : text.length ≤ e
        · rw [if_pos hend, if_pos hend]
        · rw [if_neg hend, if_neg hend]
          have hlen : e = start + size := by omega
          rw [ih f2 (e - overlap) (by omega) (by omega)]
      · simp [chunkAux, hs]

/-- C2: for `overlap < size`, `_chunk_text` returns `[]` on empty text and
otherwise a finite window list that starts at offset 0, ends exactly at the
text length, covers every position of `[0, len)`, in which each consecutive
pair of windows overlaps by exactly `overlap` characters
(`next.start + overlap = previous.stop` with `previous.stop < next.stop`),
each window is the slice `text[start:stop]` with
`stop = min(len, start + size)` (so only the final window may be shorter
than `size`); and the loop terminates: its result is independent of the
iteration budget once the budget exceeds the text length — also when the
length is an exact multiple of `size - overlap`. -/
theorem C2_chunker_coverage_overlap_termination (text : List Char) (size overlap : Nat)
    (hso : overlap < size) :
    (text = [] → _chunk_text text size overlap = []) ∧
    (text ≠ [] →
      ∃ c cs, _chunk_text text size overlap = c :: cs ∧
        c.start = 0 ∧
        (∀ x, (c :: cs).getLast? = some x → x.stop = text.length) ∧
        List.Chain' (fun a b => b.start + overlap = a.stop ∧ a.stop < b.stop) (c :: cs) ∧
        (∀ i, i < text.length → ∃ d ∈ c :: cs, d.start ≤ i ∧ i < d.stop) ∧
        (∀ d ∈ c :: cs, d.stop = min text.length (d.start + size) ∧ d.start < d.stop ∧
          d.text = (text.drop d.start).take (d.stop - d.start))) ∧
    (∀ fuel, text.length < fuel →
      chunkAux text size overlap fuel 0 = chunkAux text size overlap (text.length + 1) 0) := by
  refine ⟨?_, ?_, ?_⟩
  · intro h
    simp [_chunk_text, h]
  · intro h
    have hlen : 0 < text.length := List.length_pos.mpr h
    obtain ⟨c, cs, heq, hstart, hall, hlast, hchain, hcov⟩ :=
      chunkAux_spec text size overlap hso (text.length + 1) 0 hlen (by omega)
    refine ⟨c, cs, ?_, hstart, hlast, hchain,
      fun i hi => hcov i (Nat.zero_le i) hi, hall⟩
    rw [_chunk_text, if_neg h]
    exact heq
  · intro fuel hfuel
    exact chunkAux_fuel_eq text size overlap hso fuel (text.length + 1) 0
      (by omega) (by omega)

/-- C2 witness: the chunker applied to a six-character text with window size
3 and overlap 1 (so the length is an exact multiple of `size - overlap`). -/
theorem C2_chunker_coverage_overlap_termination_witness :
    (1 < 3 ∧ "abcdef".data ≠ []) ∧
    (∃ c cs, _chunk_text "abcdef".data 3 1 = c :: cs ∧
      c.start = 0 ∧
      (∀ x, (c :: cs).getLast? = some x → x.stop = "abcdef".data.length) ∧
      List.Chain' (fun a b => b.start + 1 = a.stop ∧ a.stop < b.stop) (c :: cs) ∧
      (∀ i, i < "abcdef".data.length → ∃ d ∈ c :: cs, d.start ≤ i ∧ i < d.stop) ∧
      (∀ d ∈ c :: cs, d.stop = min "abcdef".data.length (d.start + 3) ∧ d.start < d.stop ∧
        d.text = ("abcdef".data.drop d.start).take (d.stop - d.start))) :=
  ⟨⟨by decide, by decide⟩,
    (C2_chunker_coverage_overlap_termination "abcdef".data 3 1 (by decide)).2.1 (by decide)⟩

end DesignAutomation
